import Mathlib

/-
Verification development for the atcc-cell-scraper repository.

The Python sources are shallowly embedded: pure text manipulation is
translated into executable Lean functions on String / List Char; the two
external NLP services of nltk (sentence tokenization and part-of-speech
tagging of the first word) are passed as oracle parameters, and the
BeautifulSoup DOM region handed to the procedure parsers is abstracted as
the list of list-item texts plus the region text remaining after the
ordered list has been extracted, exactly the two pieces of data the code
reads from it.  Python dicts are association lists with assignment
semantics (dictInsert); Python None results are Option.none.
-/

/-! ## Python dictionary model -/

/-- Python dict assignment d[k] = v: replaces the binding in place if the key
is present, otherwise appends it (insertion order is preserved). -/
def dictInsert {α β : Type} [DecidableEq α] (k : α) (v : β) : List (α × β) → List (α × β)
  | [] => [(k, v)]
  | p :: rest => if p.1 = k then (k, v) :: rest else p :: dictInsert k v rest

/-- Python dict lookup d[k] on an association list whose bindings are kept
unique by dictInsert. -/
def dictLookup {α β : Type} [DecidableEq α] (k : α) : List (α × β) → Option β
  | [] => none
  | p :: rest => if p.1 = k then some p.2 else dictLookup k rest

/-- First-some choice on options, used to state lookup lemmas. -/
def optOr {α : Type} : Option α → Option α → Option α
  | some a, _ => some a
  | none, b => b

/-! ## Python string primitives -/

/-- Whitespace characters stripped by Python str.strip with no argument
(ASCII whitespace plus the no-break space; the remaining rare unicode
space code points do not occur in this code base). -/
def isPySpace (c : Char) : Bool :=
  c = ' ' || c = '\t' || c = '\n' || c = '\r' || c = '\x0b' || c = '\x0c' || c = '\xa0'

def stripChars (l : List Char) : List Char :=
  ((l.dropWhile isPySpace).reverse.dropWhile isPySpace).reverse

/-- Python str.strip(). -/
def pyStripStr (s : String) : String := ⟨stripChars s.data⟩

/-- Python s[n:]. -/
def pyDrop (n : Nat) (s : String) : String := ⟨s.data.drop n⟩

/-- Python str.isdigit restricted to ASCII digits (the only digits this
scraper meets); nonempty and all digits. -/
def pyIsDigit (s : String) : Bool :=
  !s.data.isEmpty && s.data.all (fun c => c.isDigit)

/-- Python str.lower, ASCII case folding. -/
def pyLower (s : String) : String := ⟨s.data.map Char.toLower⟩

/-- Python " ".join. -/
def joinSp : List String → String
  | [] => ""
  | [x] => x
  | x :: y :: rest => x ++ " " ++ joinSp (y :: rest)

def splitOnAux (sep : Char) : List Char → List Char → List (List Char)
  | [], acc => [acc.reverse]
  | c :: rest, acc =>
    if c = sep then acc.reverse :: splitOnAux sep rest []
    else splitOnAux sep rest (c :: acc)

/-- Python str.split(sep) with an explicit one-character separator: empty
fields are kept and the result is never the empty list. -/
def pySplitOn (sep : Char) (s : String) : List String :=
  (splitOnAux sep s.data []).map (fun l => ⟨l⟩)

/-- Everything before the first occurrence of pat, the whole text when pat
does not occur: Python text[:text.find(pat)] with find returning -1 mapped
to len(text). -/
def takeBefore (pat : List Char) : List Char → List Char
  | [] => []
  | c :: rest =>
    if pat.isPrefixOf (c :: rest) then [] else c :: takeBefore pat rest

def takeBeforeStr (pat : String) (s : String) : String := ⟨takeBefore pat.data s.data⟩

/-- Case-insensitive ASCII comparison of pat against the start of the text. -/
def ciStarts : List Char → List Char → Bool
  | [], _ => true
  | _ :: _, [] => false
  | p :: ps, c :: cs => (Char.toLower p = Char.toLower c) && ciStarts ps cs

/-- Fueled scanner for re.sub(pat, r2, text, flags=re.IGNORECASE) with a
literal pattern and empty replacement: removes every non-overlapping
occurrence left to right.  The fuel is the text length, which bounds the
number of recursive steps because every step consumes at least one
character.  All patterns used are nonempty. -/
def removeCIFuel (pat : List Char) : Nat → List Char → List Char
  | _, [] => []
  | 0, l => l
  | fuel + 1, c :: rest =>
    if ciStarts pat (c :: rest) then
      removeCIFuel pat fuel (List.drop (pat.length - 1) rest)
    else c :: removeCIFuel pat fuel rest

def removeCI (pat : String) (s : String) : String :=
  ⟨removeCIFuel pat.data s.data.length s.data⟩

/-- Fueled scanner for Python str.replace(pat, rep) with a nonempty literal
pattern: replaces every non-overlapping occurrence left to right. -/
def pyReplaceFuel (pat rep : List Char) : Nat → List Char → List Char
  | _, [] => []
  | 0, l => l
  | fuel + 1, c :: rest =>
    if pat.isPrefixOf (c :: rest) then
      rep ++ pyReplaceFuel pat rep fuel (List.drop (pat.length - 1) rest)
    else c :: pyReplaceFuel pat rep fuel rest

def pyReplace (pat rep s : String) : String :=
  ⟨pyReplaceFuel pat.data rep.data s.data.length s.data⟩

/-- Substring test, Python pat in s. -/
def containsSub (pat : List Char) : List Char → Bool
  | [] => pat.isEmpty
  | c :: rest => pat.isPrefixOf (c :: rest) || containsSub pat rest

def containsSubStr (pat s : String) : Bool := containsSub pat.data s.data

/-- Python pat in s.lower() with pat already lowercase. -/
def containsLowerSub (pat s : String) : Bool :=
  containsSub pat.data (pyLower s).data

def headIsDash (s : String) : Bool :=
  match s.data with
  | [] => false
  | c :: _ => c = '-'

def headIsDigit (s : String) : Bool :=
  match s.data with
  | [] => false
  | c :: _ => c.isDigit

/-! ## Step-key range -/

/-- The list of keys 1, 2, ..., n. -/
def keyRange (n : Nat) : List Nat := (List.range n).map (· + 1)

/-- The step mapping of a procedure has contiguous 1-based keys. -/
def contiguousKeys {β : Type} (l : List (Nat × β)) : Prop :=
  l.map Prod.fst = keyRange l.length

/-! ## parsers.py - ProcedureParser.parse_structured_paragraph -/

structure StructState where
  stepCounter : Nat
  steps : List (Nat × String)
  description : List String
  subculture : List String
  currentStep : List String
deriving DecidableEq

/-- The flush-then-increment idiom shared by the branch bodies: when a step
is open, store the joined current fragments under the current counter and
reset the fragment buffer, then advance the counter (Python lines 75-78,
82-85 and 130-133). Returns (new counter, new steps, new fragment buffer). -/
def openNewStep (counter : Nat) (steps : List (Nat × String)) (cur : List String) :
    Nat × List (Nat × String) × List String :=
  if counter > 0 then (counter + 1, dictInsert counter (joinSp cur) steps, [])
  else (counter + 1, steps, cur)

/-- Python current_step[-1] += s (no-op on an empty list, though the code
only reaches the mutation when the list is nonempty). -/
def appendToLast : List String → String → List String
  | [], _ => []
  | [x], s => [x ++ s]
  | x :: y :: rest, s => x :: appendToLast (y :: rest) s

/-- One iteration of the segment loop of parse_structured_paragraph
(parsers.py lines 67-103). -/
def structLine (st : StructState) (raw : String) : StructState :=
  let line := pyStripStr raw
  if line = "" then st
  else if pyIsDigit line = true then
    let t := openNewStep st.stepCounter st.steps st.currentStep
    { st with stepCounter := t.1, steps := t.2.1, currentStep := t.2.2 }
  else if headIsDash line = true then
    let t := openNewStep st.stepCounter st.steps st.currentStep
    { st with stepCounter := t.1, steps := t.2.1,
              currentStep := t.2.2 ++ [pyStripStr (pyDrop 1 line) ++ "."] }
  else if st.steps = [] ∧ st.stepCounter < 1 then
    { st with description := st.description ++ [line ++ "."] }
  else if headIsDigit line = true then
    if st.currentStep = [] then st
    else { st with currentStep := appendToLast st.currentStep (line ++ ".") }
  else if containsLowerSub "subculture procedure" line = true then
    { st with subculture :=
        st.subculture ++ [pyStripStr (removeCI "subculture procedure" line) ++ "."] }
  else if st.subculture ≠ [] then
    { st with subculture := st.subculture ++ [pyStripStr line ++ "."] }
  else { st with currentStep := st.currentStep ++ [line ++ "."] }

/-- The final flush (Python lines 105-106 and 140-141): if fragments remain,
store them under the current counter. -/
def finalSteps (c : Nat) (steps : List (Nat × String)) (cur : List String) :
    List (Nat × String) :=
  if cur = [] then steps else dictInsert c (joinSp cur) steps

/-- ProcedureParser.parse_structured_paragraph (parsers.py lines 51-108):
strip the header phrase case-insensitively, truncate at the CATALOG
DESCRIPTION marker, split on periods and run the segment loop; returns
(description, step mapping, subculture note). -/
def parse_structured_paragraph (text : String) : String × List (Nat × String) × String :=
  let t := removeCI "Handling Procedure for Frozen Cells" text
  let body := takeBeforeStr "CATALOG DESCRIPTION" t
  let st := (pySplitOn '.' body).foldl structLine ⟨0, [], [], [], []⟩
  (joinSp st.description, finalSteps st.stepCounter st.steps st.currentStep,
   joinSp st.subculture)

/-! ## parsers.py - ProcedureParser.parse_unstructured_paragraph

The two nltk services the loop calls are oracle parameters:
tok models nltk.tokenize.sent_tokenize, and tagF models the composite
nltk.pos_tag(word_tokenize(line))[0], the (token, part-of-speech tag) pair
of the first word of a line.  tagF is total because word_tokenize returns
at least one token for every line that is nonempty after stripping, which
is the only kind of line the code applies it to. -/

structure UnstructState where
  stepCounter : Nat
  steps : List (Nat × String)
  description : List String
  currentStep : List String
deriving DecidableEq

/-- The fixed verb allowlist of parse_unstructured_paragraph (line 118). -/
def action_verbs : List String := ["thaw", "remove", "allow", "add"]

/-- One iteration of the sentence loop of parse_unstructured_paragraph
(parsers.py lines 120-138). -/
def unstructLine (tagF : String → String × String) (st : UnstructState) (raw : String) :
    UnstructState :=
  let line := pyStripStr raw
  if line = "" then st
  else
    let tt := tagF line
    if tt.2 = "VB" ∨ pyLower tt.1 ∈ action_verbs then
      let t := openNewStep st.stepCounter st.steps st.currentStep
      { st with stepCounter := t.1, steps := t.2.1, currentStep := t.2.2 ++ [line] }
    else if st.stepCounter < 1 ∨ containsSubStr ": " line = true then
      { st with description := st.description ++ [line] }
    else { st with currentStep := st.currentStep ++ [line] }

/-- ProcedureParser.parse_unstructured_paragraph (parsers.py lines 110-143):
sentence-tokenize, open a step at every sentence whose first token is
tagged VB or is an allowlisted verb; the subculture component is always
None in this mode. -/
def parse_unstructured_paragraph (tok : String → List String)
    (tagF : String → String × String) (text : String) :
    String × List (Nat × String) × Option String :=
  let st := (tok text).foldl (unstructLine tagF) ⟨0, [], [], []⟩
  (joinSp st.description, finalSteps st.stepCounter st.steps st.currentStep, none)

/-! ## cleaners.py - TextCleaner -/

/-- The literal replacement table of TextCleaner (cleaners.py lines 29-37).
In the Python dict literal the keys backslash-xa0 and backslash-u00a0 are
the same code point, so the dict holds a single entry for it whose value
is the later one (a plain space) at the position of the first key;
iteration order is therefore the five-entry order below. -/
def UNICODE_REPLACEMENTS : List (String × String) :=
  [("\xa0", " "), ("\xad", ""), ("≤", "less than or equal to "),
   ("≥", "greater than or equal to "), ("±", "plus/minus "),
   ("–", "-")]

def applyUnicodeReplacements (s : String) : String :=
  UNICODE_REPLACEMENTS.foldl (fun t p => pyReplace p.1 p.2 t) s

/-- Whitespace class of a Python regex backslash-s escape (ASCII part). -/
def isReSpace (c : Char) : Bool :=
  c = ' ' || c = '\t' || c = '\n' || c = '\r' || c = '\x0b' || c = '\x0c'

/-- Fueled scanner for re.sub of digits followed by a degree sign and C
(cleaners.py line 55): each maximal ASCII digit run directly followed by
the two-character marker is rewritten to the digits plus a spelled-out
unit, everything else is copied. -/
def degreesCelsiusSubFuel : Nat → List Char → List Char
  | _, [] => []
  | 0, l => l
  | fuel + 1, c :: rest =>
    if c.isDigit then
      match (c :: rest).dropWhile Char.isDigit with
      | '°' :: 'C' :: rest2 =>
          (c :: rest).takeWhile Char.isDigit ++ (" degrees Celsius").data ++
            degreesCelsiusSubFuel fuel rest2
      | _ => c :: degreesCelsiusSubFuel fuel rest
    else c :: degreesCelsiusSubFuel fuel rest

def degreesCelsiusSub (s : String) : String :=
  ⟨degreesCelsiusSubFuel s.data.length s.data⟩

/-- Nonempty run of characters satisfying p, with the remainder. -/
def matchClass (p : Char → Bool) (l : List Char) : Option (List Char × List Char) :=
  let run := l.takeWhile p
  if run.isEmpty then none else some (run, l.dropWhile p)

/-- Matcher for the first vendor cross-reference pattern of cleaners.py
line 58: a space, an opening parenthesis, a nonempty run without
semicolons, a semicolon, optional whitespace, the vendor token, one
whitespace character, a nonempty run without closing parentheses and a
closing parenthesis.  Returns the remainder after the match. -/
def matchAtccRef1 (l : List Char) : Option (List Char) :=
  match l with
  | ' ' :: '(' :: l1 =>
    match matchClass (fun c => !(c = ';')) l1 with
    | none => none
    | some (_, l2) =>
      match l2 with
      | ';' :: l3 =>
        let l4 := l3.dropWhile isReSpace
        if ("ATCC".data).isPrefixOf l4 then
          match l4.drop 4 with
          | w :: l5 =>
            if isReSpace w then
              match matchClass (fun c => !(c = ')')) l5 with
              | none => none
              | some (_, l6) =>
                match l6 with
                | ')' :: l7 => some l7
                | _ => none
            else none
          | [] => none
        else none
      | _ => none
  | _ => none

/-- Matcher for the second vendor cross-reference pattern of cleaners.py
line 59: a space, an opening parenthesis, the vendor token, one whitespace
character, a nonempty run without closing parentheses and a closing
parenthesis. -/
def matchAtccRef2 (l : List Char) : Option (List Char) :=
  match l with
  | ' ' :: '(' :: l1 =>
    if ("ATCC".data).isPrefixOf l1 then
      match l1.drop 4 with
      | w :: l2 =>
        if isReSpace w then
          match matchClass (fun c => !(c = ')')) l2 with
          | none => none
          | some (_, l3) =>
            match l3 with
            | ')' :: l4 => some l4
            | _ => none
        else none
      | [] => none
    else none
  | _ => none

/-- Fueled left-to-right deletion of every occurrence of a pattern matcher. -/
def deleteMatchesFuel (m : List Char → Option (List Char)) : Nat → List Char → List Char
  | _, [] => []
  | 0, l => l
  | fuel + 1, c :: rest =>
    match m (c :: rest) with
    | some l2 => deleteMatchesFuel m fuel l2
    | none => c :: deleteMatchesFuel m fuel rest

def atccRefSub1 (s : String) : String :=
  ⟨deleteMatchesFuel matchAtccRef1 s.data.length s.data⟩

def atccRefSub2 (s : String) : String :=
  ⟨deleteMatchesFuel matchAtccRef2 s.data.length s.data⟩

/-- TextCleaner.clean_text (cleaners.py lines 39-61).  tok is the
sent_tokenize oracle.  Empty input is the falsy case and yields None; a
missing (None) text at a call site is handled identically by the same
falsy test and is represented here by the empty string. -/
def clean_text (tok : String → List String) (text : String) : Option String :=
  if text = "" then none
  else
    let t1 := applyUnicodeReplacements text
    let t2 := joinSp ((tok t1).map pyStripStr)
    let t3 := degreesCelsiusSub t2
    some (atccRefSub2 (atccRefSub1 t3))

/-- TextCleaner.clean_list (cleaners.py lines 63-66): the scalar cleaner is
applied to every item whose stripped form is truthy; blank items are
dropped before cleaning. -/
def clean_list (tok : String → List String) (items : List String) : List (Option String) :=
  (items.filter (fun it => !(pyStripStr it).data.isEmpty)).map (clean_text tok)

/-! ## parsers.py - ProcedureParser.parse and HandlingInfoParser -/

/-- The DOM region a procedure field hands to the parser, abstracted as
exactly the data the code reads from it: the texts of its li descendants
in document order (data_element.find_all of li), and the region text after
the ordered list has been extracted (data_element.text following the
ol extraction of lines 153-155 / 268-270; equal to the full region text
when there is no ordered list). -/
structure ProcElement where
  listItems : List String
  textAfterOl : String

/-- The dict comprehension of parsers.py lines 150 and 265: 1-based step
mapping over the cleaned li texts.  cl is the scalar cleaner. -/
def listItemSteps (cl : String → Option String) (items : List String) :
    List (Nat × Option String) :=
  items.enum.map (fun p => (p.1 + 1, cl p.2))

/-- A paragraph-mode step mapping injected into the value type of the
li-mode mapping (Python mixes plain strings and possibly-None cleaned
strings in the same dict position). -/
def liftVals (l : List (Nat × String)) : List (Nat × Option String) :=
  l.map (fun p => (p.1, some p.2))

/-- Python steps if steps else None. -/
def optSteps {β : Type} (l : List (Nat × β)) : Option (List (Nat × β)) :=
  if l.isEmpty then none else some l

/-- ProcedureParser.parse (parsers.py lines 145-168): li items become the
step mapping; with no li items, structured-paragraph parsing is used when
the region text contains the header phrase case-insensitively, otherwise
unstructured-paragraph parsing is used. -/
def procedureParse (tok : String → List String) (tagF : String → String × String)
    (el : ProcElement) : String × Option (List (Nat × Option String)) × Option String :=
  let steps := listItemSteps (clean_text tok) el.listItems
  let text := el.textAfterOl
  if steps.isEmpty then
    if containsLowerSub "handling procedure for frozen cells" text = true then
      let r := parse_structured_paragraph text
      (r.1, optSteps (liftVals r.2.1), some r.2.2)
    else
      let r := parse_unstructured_paragraph tok tagF text
      (r.1, optSteps (liftVals r.2.1), r.2.2)
  else (text, some steps, none)

/-- Python str.splitlines restricted to the ASCII line breaks that occur in
scraped text. -/
def splitLinesAux : List Char → List Char → List (List Char)
  | [], acc => if acc.isEmpty then [] else [acc.reverse]
  | '\r' :: '\n' :: rest, acc => acc.reverse :: splitLinesAux rest []
  | '\n' :: rest, acc => acc.reverse :: splitLinesAux rest []
  | '\r' :: rest, acc => acc.reverse :: splitLinesAux rest []
  | c :: rest, acc => splitLinesAux rest (c :: acc)

def pySplitLines (s : String) : List String :=
  (splitLinesAux s.data []).map (fun l => ⟨l⟩)

/-- The step-and-line determination of HandlingInfoParser._parse_subculturing
(parsers.py lines 264-281): li steps when present; otherwise
structured-paragraph parsing of the region text, re-attempted with
unstructured-paragraph parsing when it yields zero steps; lines are taken
from the region text in the li case and from the computed description in
the paragraph cases.  Returns (lines, steps). -/
def subculturingStepsLines (tok : String → List String)
    (tagF : String → String × String) (el : ProcElement) :
    List String × List (Nat × Option String) :=
  let steps := listItemSteps (clean_text tok) el.listItems
  if steps.isEmpty then
    let r := parse_structured_paragraph el.textAfterOl
    if r.2.1.isEmpty then
      let u := parse_unstructured_paragraph tok tagF el.textAfterOl
      (pySplitLines u.1, liftVals u.2.1)
    else (pySplitLines r.1, liftVals r.2.1)
  else (pySplitLines el.textAfterOl, steps)

/-! ## parsers.py - PriceParser -/

/-- Nat value of an ASCII digit run. -/
def digitsToNat (l : List Char) : Nat :=
  l.foldl (fun acc c => 10 * acc + (c.toNat - '0'.toNat)) 0

/-- The plain-decimal fragment of the Python float builtin: optional sign,
digits with at most one point and at least one digit overall, surrounding
whitespace ignored; anything else is a ValueError, modelled as none.  The
exponent, infinity and nan forms the builtin also accepts cannot be
produced by the digit-and-comma price texts this is applied to. -/
def parsePyFloat (s : String) : Option ℚ :=
  let l := stripChars s.data
  let sl : ℚ × List Char :=
    match l with
    | '+' :: r => (1, r)
    | '-' :: r => (-1, r)
    | _ => (1, l)
  let ip := sl.2.takeWhile Char.isDigit
  match sl.2.dropWhile Char.isDigit with
  | [] => if ip.isEmpty then none else some (sl.1 * (digitsToNat ip : ℚ))
  | '.' :: frac =>
    if frac.all Char.isDigit ∧ ¬(ip.isEmpty ∧ frac.isEmpty) then
      some (sl.1 * ((digitsToNat ip : ℚ) + (digitsToNat frac : ℚ) / (10 : ℚ) ^ frac.length))
    else none
  | _ => none

/-- PriceParser.extract_price (parsers.py lines 333-349).  The input is the
text of the current-price span, none when the span is absent.  The text is
stripped, no-break spaces become spaces, the first space-separated token
loses its leading currency character and its commas, and the rest parses
as a decimal or yields none. -/
def extract_price (priceElementText : Option String) : Option ℚ :=
  match priceElementText with
  | none => none
  | some t =>
    let t1 := pyReplace "\xa0" " " (pyStripStr t)
    let firstTok := (pySplitOn ' ' t1).headD ""
    parsePyFloat (pyReplace "," "" (pyDrop 1 firstTok))

/-! ## exporters.py - DataExporter -/

/-- The character class of the filename sanitizer in save_cell_protocol
(exporters.py line 17). -/
def illegalFilenameChars : List Char :=
  ['<', '>', ':', '\"', '/', '\\', '|', '?', '*']

/-- re.sub of the illegal-character class with an underscore. -/
def sanitizeFilename (s : String) : String :=
  ⟨s.data.map (fun c => if c ∈ illegalFilenameChars then '_' else c)⟩

/-- The file name save_cell_protocol writes for a record, relative to the
output directory (exporters.py lines 17-18). -/
def save_cell_protocol_name (cellName : String) : String :=
  sanitizeFilename (cellName ++ ".json")

/-- Python merged_data.update(cell_data): every binding of e is assigned
into d in order. -/
def pyDictUpdate {α β : Type} [DecidableEq α] (d e : List (α × β)) : List (α × β) :=
  e.foldl (fun acc kv => dictInsert kv.1 kv.2 acc) d

/-- DataExporter.merge_protocols (exporters.py lines 31-48) restricted to
its pure merge: the argument is the list of parsed top-level objects of
the .json files of the directory, in directory iteration order, and the
result is the overlay dict built by successive update calls. -/
def merge_protocols {β : Type} (files : List (List (String × β))) : List (String × β) :=
  files.foldl pyDictUpdate []

/-! ## main.py - per-record processing and the price-refresh pass -/

/-- The observable per-record effects of one iteration of the
process_cells loop. -/
structure RecordRunEffects where
  fetched : Bool
  wrote : Option String

/-- One iteration of the loop of ATCCPipeline.process_cells (main.py
lines 62-93), keeping the effects the idempotence property speaks about.
existing is the set of file names present in the output directory
(path components relative to it, matching the os.path.join arguments);
fetchOk covers scrape_cell_page and parsing succeeding.  The existence
check of line 66 is on the raw cell name plus the extension; the write of
line 82 goes through the sanitized name of save_cell_protocol. -/
def processCellRecord (existing : List String) (fetchOk : Bool) (cellName : String) :
    RecordRunEffects :=
  if (cellName ++ ".json") ∈ existing then ⟨false, none⟩
  else if fetchOk then ⟨true, some (save_cell_protocol_name cellName)⟩
  else ⟨true, none⟩

/-- One iteration of the loop of example_update_prices (main.py
lines 228-239) on an Except carrying the in-memory protocols mapping.
fetch models ATCCScraper.scrape_cell_page composed with locating the
price span: outer none is a failed fetch (the record is skipped), the
inner option is the price-span text extract_price receives.  A fetched
name absent from the protocols mapping raises KeyError in Python,
modelled as the error state.  priceVal and strVal inject the price and
the url into the JSON value type of the records. -/
def update_prices_step {β : Type} (priceVal : Option ℚ → β) (strVal : String → β)
    (fetch : String → Option (Option String)) :
    Except String (List (String × List (String × β))) → String × String →
    Except String (List (String × List (String × β)))
  | Except.error e, _ => Except.error e
  | Except.ok ps, link =>
    match fetch link.2 with
    | none => Except.ok ps
    | some page =>
      match dictLookup link.1 ps with
      | none => Except.error link.1
      | some r =>
        Except.ok (dictInsert link.1
          (dictInsert "ATCC Link" (strVal link.2)
            (dictInsert "Price" (priceVal (extract_price page)) r)) ps)

/-- The price-refresh pass of example_update_prices (main.py lines 213-245):
fold the per-link update over the links mapping, starting from the
already-assembled in-memory protocols. -/
def update_prices {β : Type} (priceVal : Option ℚ → β) (strVal : String → β)
    (fetch : String → Option (Option String)) (links : List (String × String))
    (protocols : List (String × List (String × β))) :
    Except String (List (String × List (String × β))) :=
  links.foldl (update_prices_step priceVal strVal fetch) (Except.ok protocols)

/-- The only file example_update_prices opens for writing (main.py
line 242). -/
def update_prices_writes : List String := ["cell_protocols.json"]

/-- The path of the per-record file of a cell, Config.OUTPUT_DIR joined
with the sanitized file name (config.py line 39, exporters.py
lines 17-18). -/
def perRecordFilePath (cellName : String) : String :=
  "output_data/cell_protocols/" ++ save_cell_protocol_name cellName

/-! ## Spec-side definitions for the fallback-chain refinement claim -/

/-- Modelled from the spec: the documented three-tier fallback chain for a
procedure region with no list-item steps, in the output type of
procedureParse - structured-paragraph parsing is attempted on the region
text, and when it yields zero steps, unstructured-paragraph parsing is
attempted on the same raw text. -/
def specFallbackChainLift (tok : String → List String) (tagF : String → String × String)
    (text : String) : String × Option (List (Nat × Option String)) × Option String :=
  let r := parse_structured_paragraph text
  if r.2.1.isEmpty then
    let u := parse_unstructured_paragraph tok tagF text
    (u.1, optSteps (liftVals u.2.1), u.2.2)
  else (r.1, optSteps (liftVals r.2.1), some r.2.2)

/-- Modelled from the spec: the step mapping the documented fallback chain
produces for a region with no list-item steps. -/
def specSubcultChainSteps (tok : String → List String) (tagF : String → String × String)
    (text : String) : List (Nat × String) :=
  let r := parse_structured_paragraph text
  if r.2.1.isEmpty then (parse_unstructured_paragraph tok tagF text).2.1 else r.2.1

/-! ## Frame relations for the price-refresh pass -/

/-- Two records agree on every field other than the price and link fields. -/
def RecordFrame {β : Type} (r r2 : List (String × β)) : Prop :=
  ∀ f, f ≠ "Price" → f ≠ "ATCC Link" → dictLookup f r2 = dictLookup f r

/-- The protocols mapping after the pass has the same record names, and
each surviving record agrees with its original outside the price and link
fields. -/
def ProtocolsFrame {β : Type} (ps ps2 : List (String × List (String × β))) : Prop :=
  (∀ n, (dictLookup n ps2).isSome = (dictLookup n ps).isSome) ∧
  ∀ n r r2, dictLookup n ps = some r → dictLookup n ps2 = some r2 → RecordFrame r r2

/-! ## Key disjointness for the merge claim -/

/-- Two per-record files share no top-level key. -/
def DisjKeys {β : Type} (f g : List (String × β)) : Prop :=
  ∀ k ∈ f.map Prod.fst, k ∉ g.map Prod.fst

instance {β : Type} (f g : List (String × β)) : Decidable (DisjKeys f g) := by
  unfold DisjKeys; infer_instance

/-- Last-binding-wins lookup, the value a dict built by assignments from a
binding list holds for a key. -/
def lookupLast {α β : Type} [DecidableEq α] (k : α) : List (α × β) → Option β
  | [] => none
  | p :: rest => optOr (lookupLast k rest) (if p.1 = k then some p.2 else none)

/-- Lookup across the per-record files, later files winning. -/
def filesLookup {β : Type} (k : String) : List (List (String × β)) → Option β
  | [] => none
  | f :: fs => optOr (filesLookup k fs) (lookupLast k f)

/-! ## Concrete inputs used by counterexamples and witnesses -/

/-- A handling-procedure region with no li items whose text contains the
header phrase but produces zero structured steps: the claimed fallback
chain would re-attempt unstructured parsing, the code does not. -/
def c1El : ProcElement := ⟨[], "Handling Procedure for Frozen Cells Thaw."⟩

def c1Tok : String → List String := fun _ => ["Thaw."]

def c1TagF : String → String × String := fun _ => ("Thaw", "NN")

def c1wEl : ProcElement := ⟨[], "Step text here"⟩

def c1wTok : String → List String := fun _ => ["Step text here"]

def c1wTagF : String → String × String := fun _ => ("Step", "NN")

def c5TagF : String → String × String := fun _ => ("Add", "NN")

def c5St : UnstructState := ⟨1, [], [], ["Thaw the vial."]⟩

def c7fs1 : List (List (String × Nat)) := [[("a", 1)], [("b", 2)]]

def c7fs2 : List (List (String × Nat)) := [[("b", 2)], [("a", 1)]]

def c9Links : List (String × String) := [("X", "u")]

def c9Protocols : List (String × List (String × Nat)) := [("X", [("Price", 5), ("Foo", 7)])]

def c9Fetch : String → Option (Option String) := fun _ => some none

def c9Out : List (String × List (String × Nat)) :=
  [("X", [("Price", 0), ("Foo", 7), ("ATCC Link", 1)])]

/-! ## Loop invariants of the two paragraph parsers -/

/-- Invariant of the segment loop of parse_structured_paragraph: the step
keys are exactly 1 up to one below the counter, and no fragment is pending
before the first step has opened. -/
def StructInv (st : StructState) : Prop :=
  st.steps.map Prod.fst = keyRange (st.stepCounter - 1) ∧
  (st.stepCounter = 0 → st.currentStep = [])

/-- Invariant of the sentence loop of parse_unstructured_paragraph. -/
def UnstructInv (st : UnstructState) : Prop :=
  st.steps.map Prod.fst = keyRange (st.stepCounter - 1) ∧
  (st.stepCounter = 0 → st.currentStep = [])

/-! ## Lemmas about keyRange and the dict model -/

theorem keyRange_length (n : Nat) : (keyRange n).length = n := by
  simp [keyRange]

theorem mem_keyRange {m n : Nat} : m ∈ keyRange n ↔ 1 ≤ m ∧ m ≤ n := by
  simp only [keyRange, List.mem_map, List.mem_range]
  constructor
  · rintro ⟨k, hk, rfl⟩; omega
  · intro h; exact ⟨m - 1, by omega, by omega⟩

theorem keyRange_succ (n : Nat) : keyRange (n + 1) = keyRange n ++ [n + 1] := by
  simp [keyRange, List.range_succ]

theorem keyRange_append_self {c : Nat} (hc : 1 ≤ c) :
    keyRange (c - 1) ++ [c] = keyRange c := by
  have h := keyRange_succ (c - 1)
  rw [show c - 1 + 1 = c from by omega] at h
  exact h.symm

theorem self_not_mem_keyRange_pred {c : Nat} (hc : 1 ≤ c) : c ∉ keyRange (c - 1) := by
  intro h
  have := mem_keyRange.mp h
  omega

theorem dictInsert_map_fst_of_not_mem {α β : Type} [DecidableEq α] (k : α) (v : β) :
    ∀ l : List (α × β), k ∉ l.map Prod.fst →
      (dictInsert k v l).map Prod.fst = l.map Prod.fst ++ [k]
  | [], _ => rfl
  | p :: rest, h => by
    have hp : ¬ p.1 = k := by
      intro e
      apply h
      rw [List.map_cons, ← e]
      exact List.mem_cons_self _ _
    unfold dictInsert
    rw [if_neg hp]
    simp only [List.map_cons, List.cons_append]
    have hrest : k ∉ rest.map Prod.fst := fun hm => h (List.mem_cons_of_mem _ hm)
    rw [dictInsert_map_fst_of_not_mem k v rest hrest]

theorem contiguous_of_map_fst {β : Type} {l : List (Nat × β)} {n : Nat}
    (h : l.map Prod.fst = keyRange n) : contiguousKeys l := by
  unfold contiguousKeys
  have hl : l.length = n := by
    have h2 := congrArg List.length h
    rw [List.length_map, keyRange_length] at h2
    exact h2
  rw [hl]
  exact h

theorem openNewStep_fst {c : Nat} (steps : List (Nat × String)) (cur : List String) :
    (openNewStep c steps cur).1 = c + 1 := by
  unfold openNewStep
  split
  · rfl
  · rfl

theorem openNewStep_keys {c : Nat} {steps : List (Nat × String)} (cur : List String)
    (h : steps.map Prod.fst = keyRange (c - 1)) :
    ((openNewStep c steps cur).2.1).map Prod.fst = keyRange (c + 1 - 1) := by
  unfold openNewStep
  split
  · next hc =>
    dsimp only
    rw [dictInsert_map_fst_of_not_mem c (joinSp cur) steps
        (by rw [h]; exact self_not_mem_keyRange_pred hc), h, keyRange_append_self hc]
    rfl
  · next hc =>
    dsimp only
    have hc0 : c = 0 := by omega
    subst hc0
    exact h

theorem structLine_inv (st : StructState) (raw : String) (h : StructInv st) :
    StructInv (structLine st raw) := by
  obtain ⟨h1, h2⟩ := h
  unfold structLine
  dsimp only
  split
  · exact ⟨h1, h2⟩
  · split
    · constructor
      · rw [openNewStep_fst]
        exact openNewStep_keys st.currentStep h1
      · rw [openNewStep_fst]
        intro h0
        exact absurd (show st.stepCounter + 1 = 0 from h0) (by omega)
    · split
      · constructor
        · rw [openNewStep_fst]
          exact openNewStep_keys st.currentStep h1
        · rw [openNewStep_fst]
          intro h0
          exact absurd (show st.stepCounter + 1 = 0 from h0) (by omega)
      · split
        · exact ⟨h1, h2⟩
        · next hguard =>
          split
          · split
            · exact ⟨h1, h2⟩
            · next hcur =>
                exact ⟨h1, fun h0 => absurd (h2 (show st.stepCounter = 0 from h0)) hcur⟩
          · split
            · exact ⟨h1, h2⟩
            · split
              · exact ⟨h1, h2⟩
              · refine ⟨h1, fun h0 => ?_⟩
                have h0b : st.stepCounter = 0 := h0
                exfalso
                apply hguard
                constructor
                · have h3 : st.steps.map Prod.fst = [] := by
                    rw [h1, h0b]
                    rfl
                  exact List.map_eq_nil_iff.mp h3
                · omega

theorem unstructLine_inv (tagF : String → String × String) (st : UnstructState)
    (raw : String) (h : UnstructInv st) : UnstructInv (unstructLine tagF st raw) := by
  obtain ⟨h1, h2⟩ := h
  unfold unstructLine
  dsimp only
  split
  · exact ⟨h1, h2⟩
  · split
    · constructor
      · rw [openNewStep_fst]
        exact openNewStep_keys st.currentStep h1
      · rw [openNewStep_fst]
        intro h0
        exact absurd (show st.stepCounter + 1 = 0 from h0) (by omega)
    · split
      · exact ⟨h1, h2⟩
      · next hdesc =>
        refine ⟨h1, fun h0 => ?_⟩
        have h0b : st.stepCounter = 0 := h0
        exfalso
        exact hdesc (Or.inl (by omega))

theorem structFold_inv : ∀ (lines : List String) (st : StructState), StructInv st →
    StructInv (lines.foldl structLine st)
  | [], _, h => h
  | l :: ls, st, h => structFold_inv ls (structLine st l) (structLine_inv st l h)

theorem unstructFold_inv (tagF : String → String × String) :
    ∀ (lines : List String) (st : UnstructState), UnstructInv st →
      UnstructInv (lines.foldl (unstructLine tagF) st)
  | [], _, h => h
  | l :: ls, st, h =>
    unstructFold_inv tagF ls (unstructLine tagF st l) (unstructLine_inv tagF st l h)

theorem finalSteps_contiguous {c : Nat} {steps : List (Nat × String)} {cur : List String}
    (h1 : steps.map Prod.fst = keyRange (c - 1)) (h2 : c = 0 → cur = []) :
    contiguousKeys (finalSteps c steps cur) := by
  unfold finalSteps
  split
  · exact contiguous_of_map_fst h1
  · next hcur =>
    have hc : 1 ≤ c := by
      rcases Nat.eq_zero_or_pos c with h0 | h0
      · exact absurd (h2 h0) hcur
      · exact h0
    exact contiguous_of_map_fst (show (dictInsert c (joinSp cur) steps).map Prod.fst
      = keyRange c from by
        rw [dictInsert_map_fst_of_not_mem c (joinSp cur) steps
            (by rw [h1]; exact self_not_mem_keyRange_pred hc), h1, keyRange_append_self hc])

theorem listItemSteps_contiguous {cl : String → Option String} (items : List String) :
    contiguousKeys (listItemSteps cl items) := by
  unfold contiguousKeys listItemSteps
  have h1 : ((items.enum.map (fun p => (p.1 + 1, cl p.2))).map Prod.fst)
      = (List.range items.length).map (· + 1) := by
    rw [List.map_map]
    rw [show (Prod.fst ∘ fun p : Nat × String => (p.1 + 1, cl p.2))
        = ((· + 1) ∘ Prod.fst) from rfl]
    rw [← List.map_map, List.enum_map_fst]
  have h2 : (items.enum.map (fun p => (p.1 + 1, cl p.2))).length = items.length := by
    rw [List.length_map, List.enum_length]
  rw [h1, h2]
  rfl

/-- Claim C3: for every input to the procedure segmenter, in each of its
three modes (explicit list markup, structured paragraph, unstructured
paragraph), a step mapping with N entries has exactly the contiguous keys
1 through N. -/
theorem C3_step_keys_contiguous (text : String) (tok : String → List String)
    (tagF : String → String × String) (cl : String → Option String) (items : List String) :
    contiguousKeys (parse_structured_paragraph text).2.1 ∧
    contiguousKeys (parse_unstructured_paragraph tok tagF text).2.1 ∧
    contiguousKeys (listItemSteps cl items) := by
  refine ⟨?_, ?_, listItemSteps_contiguous items⟩
  · have hinv := structFold_inv (pySplitOn '.' (takeBeforeStr "CATALOG DESCRIPTION"
      (removeCI "Handling Procedure for Frozen Cells" text))) ⟨0, [], [], [], []⟩
      ⟨rfl, fun _ => rfl⟩
    exact finalSteps_contiguous hinv.1 hinv.2
  · have hinv := unstructFold_inv tagF (tok text) ⟨0, [], [], []⟩ ⟨rfl, fun _ => rfl⟩
    exact finalSteps_contiguous hinv.1 hinv.2

/-- Claim C4: structured-paragraph parsing of the given input truncates at
the CATALOG DESCRIPTION marker and returns exactly the two steps with an
empty description (and an empty subculture note). -/
theorem C4_structured_example :
    parse_structured_paragraph
      "1. Thaw cells. 2. Add medium. CATALOG DESCRIPTION ignored text" =
      ("", [(1, "Thaw cells."), (2, "Add medium.")], "") := by
  decide

/-- Claim C5: in unstructured-paragraph parsing, a sentence whose first
token lowercases to one of the allowlisted verbs opens a new step - the
counter advances, the sentence starts the new fragment buffer, and the
prior step (when one is open) is stored under its key - whatever
part-of-speech tag the tagger assigned to that token. -/
theorem C5_allowlist_verb_opens_step (tagF : String → String × String)
    (st : UnstructState) (raw : String)
    (hne : ¬ pyStripStr raw = "")
    (hverb : pyLower (tagF (pyStripStr raw)).1 ∈ action_verbs) :
    (unstructLine tagF st raw).stepCounter = st.stepCounter + 1 ∧
    (unstructLine tagF st raw).currentStep =
      (if st.stepCounter > 0 then [] else st.currentStep) ++ [pyStripStr raw] ∧
    (st.stepCounter > 0 →
      (unstructLine tagF st raw).steps =
        dictInsert st.stepCounter (joinSp st.currentStep) st.steps) := by
  unfold unstructLine
  dsimp only
  rw [if_neg hne, if_pos (Or.inr hverb)]
  unfold openNewStep
  by_cases hc : st.stepCounter > 0
  · simp only [if_pos hc]
    exact ⟨trivial, trivial, fun _ => trivial⟩
  · simp only [if_neg hc]
    exact ⟨trivial, trivial, fun h => absurd h hc⟩

/-- Witness for C5 at a concrete sentence whose tagger output is a
non-verb tag. -/
theorem C5_witness :
    (unstructLine c5TagF c5St "Add 10mL of medium.").stepCounter = c5St.stepCounter + 1 ∧
    (unstructLine c5TagF c5St "Add 10mL of medium.").currentStep =
      (if c5St.stepCounter > 0 then [] else c5St.currentStep) ++
        [pyStripStr "Add 10mL of medium."] ∧
    (c5St.stepCounter > 0 →
      (unstructLine c5TagF c5St "Add 10mL of medium.").steps =
        dictInsert c5St.stepCounter (joinSp c5St.currentStep) c5St.steps) :=
  C5_allowlist_verb_opens_step c5TagF c5St "Add 10mL of medium." (by decide) (by decide)

/-- Claim C8: list cleaning drops blank entries before applying the scalar
cleaner, and the given three-element input yields exactly two cleaned
entries, for every sentence tokenizer. -/
theorem C8_clean_list_drops_blanks_before_cleaning :
    ∀ tok : String → List String,
      clean_list tok ["a", "", " b "] = [clean_text tok "a", clean_text tok " b "] ∧
      (clean_list tok ["a", "", " b "]).length = 2 :=
  fun _ => ⟨rfl, rfl⟩

/-- Claim C10: a nonempty whitespace-only input is cleaned to the empty
string, and the cleaner returns None only on falsy input - every nonempty
input yields a string.  The tokenizer hypothesis records that the punkt
sentence tokenizer yields no sentences for text without word tokens. -/
theorem C10_whitespace_only_cleans_to_empty (tok : String → List String) (text : String)
    (hne : text ≠ "") (_hws : text.data.all isPySpace = true)
    (htok : tok (applyUnicodeReplacements text) = []) :
    clean_text tok text = some "" ∧ ∀ t : String, t ≠ "" → clean_text tok t ≠ none := by
  constructor
  · unfold clean_text
    rw [if_neg hne]
    dsimp only
    rw [htok]
    rfl
  · intro t ht
    unfold clean_text
    rw [if_neg ht]
    simp

/-- Witness for C10 at a single-space input. -/
theorem C10_witness :
    clean_text (fun _ => ([] : List String)) " " = some "" :=
  (C10_whitespace_only_cleans_to_empty (fun _ => ([] : List String)) " "
    (by decide) (by decide) rfl).1

theorem ite_isEmpty_nil {γ β : Type} (a b : γ) :
    (if ([] : List β).isEmpty = true then a else b) = a := if_pos rfl

/-- Counterexample to claim C1: a handling-procedure region with no
list-item steps whose text contains the header phrase and yields zero
structured steps.  The documented chain would re-attempt unstructured
parsing on the same raw text; ProcedureParser.parse returns the zero-step
structured result instead, so the two disagree at this input. -/
theorem C1_fallback_chain_counterexample :
    c1El.listItems = [] ∧
    procedureParse c1Tok c1TagF c1El ≠
      specFallbackChainLift c1Tok c1TagF c1El.textAfterOl :=
  ⟨rfl, by decide⟩

/-- Claim C1 as amended: for the subculturing-procedure field the
three-tier fallback chain holds as documented; for the handling-procedure
field, with no list-item steps, structured-paragraph parsing is attempted
exactly when the region text contains the header phrase
(case-insensitively) and its result is kept even when it has zero steps,
and otherwise unstructured-paragraph parsing is used directly. -/
theorem C1_amended_fallback (tok : String → List String) (tagF : String → String × String)
    (el : ProcElement) (hli : el.listItems = []) :
    (containsLowerSub "handling procedure for frozen cells" el.textAfterOl = true →
      procedureParse tok tagF el =
        ((parse_structured_paragraph el.textAfterOl).1,
         optSteps (liftVals (parse_structured_paragraph el.textAfterOl).2.1),
         some (parse_structured_paragraph el.textAfterOl).2.2)) ∧
    (containsLowerSub "handling procedure for frozen cells" el.textAfterOl = false →
      procedureParse tok tagF el =
        ((parse_unstructured_paragraph tok tagF el.textAfterOl).1,
         optSteps (liftVals (parse_unstructured_paragraph tok tagF el.textAfterOl).2.1),
         (parse_unstructured_paragraph tok tagF el.textAfterOl).2.2)) ∧
    (subculturingStepsLines tok tagF el).2 =
      liftVals (specSubcultChainSteps tok tagF el.textAfterOl) := by
  have hsteps : listItemSteps (clean_text tok) el.listItems = [] := by
    rw [hli]
    rfl
  refine ⟨?_, ?_, ?_⟩
  · intro hct
    unfold procedureParse
    dsimp only
    rw [hsteps, ite_isEmpty_nil, if_pos hct]
  · intro hcf
    unfold procedureParse
    dsimp only
    rw [hsteps, ite_isEmpty_nil, if_neg (by rw [hcf]; exact Bool.false_ne_true)]
  · unfold subculturingStepsLines specSubcultChainSteps
    dsimp only
    rw [hsteps, ite_isEmpty_nil]
    by_cases hs : (parse_structured_paragraph el.textAfterOl).2.1.isEmpty = true
    · rw [if_pos hs, if_pos hs]
    · rw [if_neg hs, if_neg hs]

/-- Witness for the amended C1 at a concrete no-list region. -/
theorem C1_amended_witness :
    (subculturingStepsLines c1wTok c1wTagF c1wEl).2 =
      liftVals (specSubcultChainSteps c1wTok c1wTagF c1wEl.textAfterOl) :=
  (C1_amended_fallback c1wTok c1wTagF c1wEl rfl).2.2

/-- Claim C2 evaluated at its failing input: for the record name A/B the
saver writes the sanitized file name, yet with exactly that file present
the loop re-fetches and re-writes, because the existence check of
process_cells uses the raw name. -/
theorem C2_raw_name_check_misses_sanitized_file :
    save_cell_protocol_name "A/B" = "A_B.json" ∧
    (processCellRecord ["A_B.json"] true "A/B").fetched = true ∧
    (processCellRecord ["A_B.json"] true "A/B").wrote = some "A_B.json" := by
  refine ⟨by decide, by decide, by decide⟩

/-- Claim C6: the price extractor yields the decimal 1234.50 for the
current-price text with currency symbol, thousands separator and unit
suffix; an absent price span yields none; a non-numeric remainder yields
none. -/
theorem C6_price_extraction :
    extract_price (some "$1,234.50 / unit") = some (1234.50 : ℚ) ∧
    extract_price none = none ∧
    extract_price (some "Price unavailable") = none := by
  refine ⟨?_, rfl, rfl⟩
  have h1 : extract_price (some "$1,234.50 / unit") =
      some ((1 : ℚ) * ((↑(1234 : Nat) : ℚ) + (↑(50 : Nat) : ℚ) / (10 : ℚ) ^ (2 : Nat))) := rfl
  rw [h1]
  norm_num

theorem optOr_assoc {α : Type} (a b c : Option α) :
    optOr (optOr a b) c = optOr a (optOr b c) := by
  cases a <;> rfl

theorem optOr_none_right {α : Type} (a : Option α) : optOr a none = a := by
  cases a <;> rfl

theorem dictLookup_cons {α β : Type} [DecidableEq α] (k : α) (p : α × β)
    (rest : List (α × β)) :
    dictLookup k (p :: rest) = if p.1 = k then some p.2 else dictLookup k rest := rfl

theorem lookupLast_cons {α β : Type} [DecidableEq α] (k : α) (p : α × β)
    (rest : List (α × β)) :
    lookupLast k (p :: rest) =
      optOr (lookupLast k rest) (if p.1 = k then some p.2 else none) := rfl

theorem filesLookup_cons {β : Type} (k : String) (f : List (String × β))
    (fs : List (List (String × β))) :
    filesLookup k (f :: fs) = optOr (filesLookup k fs) (lookupLast k f) := rfl

theorem dictLookup_dictInsert {α β : Type} [DecidableEq α] (k k2 : α) (v : β) :
    ∀ l : List (α × β), dictLookup k (dictInsert k2 v l) =
      if k2 = k then some v else dictLookup k l := by
  intro l
  induction l with
  | nil => rfl
  | cons p rest ih =>
    unfold dictInsert
    by_cases hp : p.1 = k2
    · rw [if_pos hp, dictLookup_cons, dictLookup_cons]
      dsimp only
      by_cases hk : k2 = k
      · rw [if_pos hk, if_pos hk]
      · rw [if_neg hk, if_neg hk, if_neg (show ¬ p.1 = k from by rw [hp]; exact hk)]
    · rw [if_neg hp, dictLookup_cons, dictLookup_cons]
      by_cases hpk : p.1 = k
      · rw [if_pos hpk, if_neg (show ¬ k2 = k from fun h => hp (hpk.trans h.symm)), if_pos hpk]
      · rw [if_neg hpk, ih, if_neg hpk]

theorem dictLookup_pyDictUpdate {α β : Type} [DecidableEq α] (k : α) :
    ∀ (e d : List (α × β)),
      dictLookup k (pyDictUpdate d e) = optOr (lookupLast k e) (dictLookup k d)
  | [], d => rfl
  | kv :: e, d => by
    have ih := dictLookup_pyDictUpdate k e (dictInsert kv.1 kv.2 d)
    rw [show pyDictUpdate d (kv :: e) = pyDictUpdate (dictInsert kv.1 kv.2 d) e from rfl]
    rw [ih, dictLookup_dictInsert, lookupLast_cons, optOr_assoc]
    congr 1
    by_cases h : kv.1 = k
    · rw [if_pos h, if_pos h]
      rfl
    · rw [if_neg h, if_neg h]
      rfl

theorem dictLookup_foldl_update {β : Type} (k : String) :
    ∀ (fs : List (List (String × β))) (d : List (String × β)),
      dictLookup k (fs.foldl pyDictUpdate d) = optOr (filesLookup k fs) (dictLookup k d)
  | [], d => rfl
  | f :: fs, d => by
    have ih := dictLookup_foldl_update k fs (pyDictUpdate d f)
    rw [show (f :: fs).foldl pyDictUpdate d = fs.foldl pyDictUpdate (pyDictUpdate d f)
        from rfl]
    rw [ih, dictLookup_pyDictUpdate, filesLookup_cons, optOr_assoc]

theorem dictLookup_merge_protocols {β : Type} (k : String)
    (fs : List (List (String × β))) :
    dictLookup k (merge_protocols fs) = filesLookup k fs := by
  unfold merge_protocols
  rw [dictLookup_foldl_update, show dictLookup k ([] : List (String × β)) = none from rfl,
      optOr_none_right]

theorem lookupLast_some_mem {α β : Type} [DecidableEq α] (k : α) :
    ∀ (f : List (α × β)) (v : β), lookupLast k f = some v → k ∈ f.map Prod.fst
  | [], v, h => by cases h
  | p :: rest, v, h => by
    rw [lookupLast_cons] at h
    simp only [List.map_cons, List.mem_cons]
    cases hr : lookupLast k rest with
    | some w => exact Or.inr (lookupLast_some_mem k rest w hr)
    | none =>
      rw [hr] at h
      by_cases hp : p.1 = k
      · exact Or.inl hp.symm
      · rw [if_neg hp] at h
        exact Option.noConfusion (show (none : Option β) = some v from h)

theorem filesLookup_perm {β : Type} (k : String) :
    ∀ {fs1 fs2 : List (List (String × β))}, fs1.Perm fs2 →
      fs1.Pairwise DisjKeys → filesLookup k fs1 = filesLookup k fs2 := by
  intro fs1 fs2 hperm
  induction hperm with
  | nil => intro _; rfl
  | cons f hp ih =>
    intro hpw
    rw [filesLookup_cons, filesLookup_cons, ih (List.pairwise_cons.mp hpw).2]
  | swap f g l =>
    intro hpw
    have hd : DisjKeys g f := (List.pairwise_cons.mp hpw).1 f (List.mem_cons_self f _)
    simp only [filesLookup_cons]
    cases hfl : filesLookup k l with
    | some a => rfl
    | none =>
      cases hg : lookupLast k g with
      | none =>
        cases hf : lookupLast k f with
        | none => rfl
        | some vf => rfl
      | some vg =>
        cases hf : lookupLast k f with
        | none => rfl
        | some vf =>
          exact absurd (lookupLast_some_mem k f vf hf)
            (hd k (lookupLast_some_mem k g vg hg))
  | trans h1 h2 ih1 ih2 =>
    intro hpw
    rw [ih1 hpw,
        ih2 ((List.Perm.pairwise_iff (fun hab => fun kk h1k h2k => hab kk h2k h1k) h1).mp hpw)]

/-- Claim C7: merging is a pure function of the directory contents -
merging the same file list twice yields identical output - and for files
with pairwise disjoint top-level keys, any iteration order of the files
produces the same merged mapping. -/
theorem C7_merge_pure_and_order_independent {β : Type}
    (fs1 fs2 : List (List (String × β))) (hperm : fs1.Perm fs2)
    (hdisj : fs1.Pairwise DisjKeys) :
    merge_protocols fs1 = merge_protocols fs1 ∧
    ∀ k, dictLookup k (merge_protocols fs1) = dictLookup k (merge_protocols fs2) := by
  refine ⟨rfl, fun k => ?_⟩
  rw [dictLookup_merge_protocols, dictLookup_merge_protocols]
  exact filesLookup_perm k hperm hdisj

/-- Witness for C7 on two single-record files merged in both orders. -/
theorem C7_witness :
    dictLookup "a" (merge_protocols c7fs1) = dictLookup "a" (merge_protocols c7fs2) :=
  (C7_merge_pure_and_order_independent c7fs1 c7fs2 (by decide) (by decide)).2 "a"

theorem ProtocolsFrame_refl {β : Type} (ps : List (String × List (String × β))) :
    ProtocolsFrame ps ps := by
  refine ⟨fun _ => rfl, fun n r r2 h1 h2 => ?_⟩
  rw [h1] at h2
  injection h2 with h3
  subst h3
  exact fun f _ _ => rfl

theorem ProtocolsFrame_trans {β : Type}
    {a b c : List (String × List (String × β))}
    (h1 : ProtocolsFrame a b) (h2 : ProtocolsFrame b c) : ProtocolsFrame a c := by
  refine ⟨fun n => (h2.1 n).trans (h1.1 n), fun n r r2 ha hc => ?_⟩
  have hb : (dictLookup n b).isSome = true := by
    rw [h1.1 n, ha]
    rfl
  obtain ⟨rb, hrb⟩ := Option.isSome_iff_exists.mp hb
  intro f hf1 hf2
  rw [h2.2 n rb r2 hrb hc f hf1 hf2, h1.2 n r rb ha hrb f hf1 hf2]

theorem update_prices_step_frame {β : Type} (priceVal : Option ℚ → β)
    (strVal : String → β) (fetch : String → Option (Option String))
    (ps ps2 : List (String × List (String × β))) (link : String × String)
    (h : update_prices_step priceVal strVal fetch (Except.ok ps) link = Except.ok ps2) :
    ProtocolsFrame ps ps2 := by
  simp only [update_prices_step] at h
  cases hf : fetch link.2 with
  | none =>
    rw [hf] at h
    injection h with h2
    subst h2
    exact ProtocolsFrame_refl ps
  | some page =>
    rw [hf] at h
    cases hl : dictLookup link.1 ps with
    | none =>
      rw [hl] at h
      cases h
    | some r =>
      rw [hl] at h
      injection h with h2
      subst h2
      constructor
      · intro n
        rw [dictLookup_dictInsert]
        by_cases hn : link.1 = n
        · rw [if_pos hn]
          rw [hn] at hl
          rw [hl]
          rfl
        · rw [if_neg hn]
      · intro n r0 r2 h0 h2b
        rw [dictLookup_dictInsert] at h2b
        by_cases hn : link.1 = n
        · rw [if_pos hn] at h2b
          injection h2b with h3
          subst h3
          rw [hn] at hl
          rw [h0] at hl
          injection hl with h4
          subst h4
          intro f hf1 hf2
          rw [dictLookup_dictInsert, dictLookup_dictInsert]
          rw [if_neg (show ¬ "ATCC Link" = f from fun e => hf2 e.symm),
              if_neg (show ¬ "Price" = f from fun e => hf1 e.symm)]
        · rw [if_neg hn] at h2b
          rw [h0] at h2b
          injection h2b with h4
          subst h4
          exact fun f _ _ => rfl

theorem update_prices_fold_frame {β : Type} (priceVal : Option ℚ → β)
    (strVal : String → β) (fetch : String → Option (Option String)) :
    ∀ (links : List (String × String))
      (acc : Except String (List (String × List (String × β))))
      (ps2 : List (String × List (String × β))),
      links.foldl (update_prices_step priceVal strVal fetch) acc = Except.ok ps2 →
      ∃ ps0, acc = Except.ok ps0 ∧ ProtocolsFrame ps0 ps2
  | [], acc, ps2, h => ⟨ps2, h, ProtocolsFrame_refl ps2⟩
  | l :: ls, acc, ps2, h => by
    obtain ⟨ps1, hstep, hframe⟩ := update_prices_fold_frame priceVal strVal fetch ls
      (update_prices_step priceVal strVal fetch acc l) ps2 h
    cases acc with
    | error e =>
      rw [show update_prices_step priceVal strVal fetch (Except.error e) l
          = Except.error e from rfl] at hstep
      cases hstep
    | ok ps0 =>
      exact ⟨ps0, rfl,
        ProtocolsFrame_trans
          (update_prices_step_frame priceVal strVal fetch ps0 ps1 l hstep) hframe⟩

theorem perRecordFilePath_ne_merged (n : String) :
    perRecordFilePath n ≠ "cell_protocols.json" := by
  intro h
  have h2 := congrArg (fun s => s.data.length) h
  dsimp only at h2
  unfold perRecordFilePath at h2
  rw [show ("output_data/cell_protocols/" ++ save_cell_protocol_name n).data
      = ("output_data/cell_protocols/").data ++ (save_cell_protocol_name n).data from rfl,
      List.length_append] at h2
  have h3 : (save_cell_protocol_name n).data.length = n.data.length + 5 := by
    unfold save_cell_protocol_name sanitizeFilename
    rw [show ((⟨((n ++ ".json").data.map
          (fun c => if c ∈ illegalFilenameChars then '_' else c))⟩ : String)).data
        = (n ++ ".json").data.map (fun c => if c ∈ illegalFilenameChars then '_' else c)
        from rfl,
        List.length_map,
        show (n ++ ".json").data = n.data ++ (".json").data from rfl,
        List.length_append]
    rfl
  rw [h3, show ("output_data/cell_protocols/" : String).data.length = 27 from rfl,
      show ("cell_protocols.json" : String).data.length = 19 from rfl] at h2
  omega

/-- Claim C9: whenever the price-refresh pass completes, every record name
survives unchanged, every field of every record other than Price and
ATCC Link keeps its value, and the pass writes only the aggregate file,
never a per-record file. -/
theorem C9_price_refresh_frame {β : Type} (priceVal : Option ℚ → β)
    (strVal : String → β) (fetch : String → Option (Option String))
    (links : List (String × String))
    (protocols updated : List (String × List (String × β)))
    (h : update_prices priceVal strVal fetch links protocols = Except.ok updated) :
    ((∀ n, (dictLookup n updated).isSome = (dictLookup n protocols).isSome) ∧
     ∀ n r r2, dictLookup n protocols = some r → dictLookup n updated = some r2 →
       ∀ f, f ≠ "Price" → f ≠ "ATCC Link" → dictLookup f r2 = dictLookup f r) ∧
    ∀ n, perRecordFilePath n ∉ update_prices_writes := by
  obtain ⟨ps0, hacc, hframe⟩ := update_prices_fold_frame priceVal strVal fetch links
    (Except.ok protocols) updated h
  injection hacc with h2
  subst h2
  refine ⟨⟨hframe.1, hframe.2⟩, fun n hmem => ?_⟩
  exact perRecordFilePath_ne_merged n (List.mem_singleton.mp hmem)

/-- Witness for C9: a one-link refresh over a one-record mapping leaves
the Foo field untouched. -/
theorem C9_witness :
    dictLookup "Foo" [("Price", (0 : Nat)), ("Foo", 7), ("ATCC Link", 1)] =
      dictLookup "Foo" [("Price", (5 : Nat)), ("Foo", 7)] :=
  ((C9_price_refresh_frame (fun _ => (0 : Nat)) (fun _ => 1) c9Fetch c9Links
      c9Protocols c9Out rfl).1).2 "X"
    [("Price", (5 : Nat)), ("Foo", 7)]
    [("Price", (0 : Nat)), ("Foo", 7), ("ATCC Link", 1)]
    rfl rfl "Foo" (by decide) (by decide)
